/-
Verification of the NeuroSync coordination core.

The six core components (Command Router, Load Balancer, Failsafe Monitor,
Buffer System, Sync Manager, Toggle Dispatcher) are shallowly embedded:
each Python class becomes a Lean structure, each method a pure function on
that structure (stateful methods return the updated structure), `datetime`
values become natural-number timestamps (milliseconds), Python `dict`s
become association lists with insert-or-replace key semantics, and
exceptions become explicit result constructors.  Opaque payload data
(`Dict[str, Any]`) is modelled by string-keyed, string-valued association
lists; no claim depends on its shape.

The identifier strings built with f-strings in the source are modelled with
`Nat.repr` and string concatenation, which is exactly what the interpolation
of a non-negative integer produces.
-/
import Mathlib

set_option linter.unusedVariables false

namespace NeuroSync

/-- Model of an opaque Python `Dict[str, Any]` payload. -/
abbrev PyDict := List (String × String)

/-! ### Buffer System (`core/buffer_system.py`)

`datetime` values are modelled as natural-number timestamps in milliseconds
(`BufferEntry.__init__` derives the id from `datetime.now().timestamp() * 1000`
and stores the creation instant; `isoformat`/`fromisoformat` round-trip the
stored instant, so `to_dict`/`from_dict` carry the timestamp unchanged). -/

/-- `BufferType` enum from `core/buffer_system.py`. -/
inductive BufferType where
  | command
  | sync_data
  | heartbeat
  | event
  | metric
deriving DecidableEq, Repr, Inhabited

/-- `BufferEntry` object state.  `priority` is a Python `int` (`Int` here);
timestamps are milliseconds. -/
structure BufferEntry where
  entry_id : String
  buffer_type : BufferType
  data : PyDict
  priority : Int
  created_at : Nat
  expires_at : Option Nat
  retry_count : Nat
  max_retries : Nat
  processed : Bool
  error : Option String
deriving DecidableEq, Repr, Inhabited

/-- Identifier format of `BufferEntry.__init__`:
`f"buf_{int(datetime.now().timestamp() * 1000)}"`. -/
def buf_entry_id (nowMs : Nat) : String := "buf_" ++ Nat.repr nowMs

/-- `BufferEntry.__init__(buffer_type, data, priority, expires_at)`. -/
def mkBufferEntry (nowMs : Nat) (buffer_type : BufferType) (data : PyDict)
    (priority : Int) (expires_at : Option Nat) : BufferEntry :=
  { entry_id := buf_entry_id nowMs
    buffer_type := buffer_type
    data := data
    priority := priority
    created_at := nowMs
    expires_at := expires_at
    retry_count := 0
    max_retries := 3
    processed := false
    error := none }

/-- `BufferEntry.is_expired`: false without a deadline, else
`datetime.now(timezone.utc) > self.expires_at`. -/
def is_expired (nowMs : Nat) (e : BufferEntry) : Bool :=
  match e.expires_at with
  | none => false
  | some t => decide (t < nowMs)

/-- The dictionary produced by `BufferEntry.to_dict` (and consumed by
`from_dict`); the JSON layer round-trips it unchanged. -/
structure EntryDict where
  entry_id : String
  buffer_type : BufferType
  data : PyDict
  priority : Int
  created_at : Nat
  expires_at : Option Nat
  retry_count : Nat
  max_retries : Nat
  processed : Bool
  error : Option String
deriving DecidableEq, Repr

/-- `BufferEntry.to_dict`. -/
def BufferEntry.to_dict (e : BufferEntry) : EntryDict :=
  { entry_id := e.entry_id
    buffer_type := e.buffer_type
    data := e.data
    priority := e.priority
    created_at := e.created_at
    expires_at := e.expires_at
    retry_count := e.retry_count
    max_retries := e.max_retries
    processed := e.processed
    error := e.error }

/-- `BufferEntry.from_dict`: constructs via `__init__` (with `data['priority']`,
default `0`, present after `to_dict`) and then overwrites `entry_id`,
`created_at`, `expires_at`, `retry_count`, `max_retries`, `processed`,
`error` from the dictionary. -/
def BufferEntry.from_dict (nowMs : Nat) (d : EntryDict) : BufferEntry :=
  let entry := mkBufferEntry nowMs d.buffer_type d.data d.priority none
  { entry with
    entry_id := d.entry_id
    created_at := d.created_at
    expires_at := d.expires_at
    retry_count := d.retry_count
    max_retries := d.max_retries
    processed := d.processed
    error := d.error }

/-- Mutable state of `BufferSystem` relevant to buffering
(`buffer_entries` and the configured `BUFFER_MAX_SIZE`). -/
structure BufferState where
  buffer_entries : List BufferEntry
  max_buffer_size : Nat
deriving DecidableEq, Repr

/-- Sort key of `add_entry` line 145: `(-x.priority, x.created_at)` ascending;
`list.sort` is stable and so is `List.mergeSort`. -/
def entry_le (a b : BufferEntry) : Bool :=
  decide (b.priority < a.priority) || (decide (a.priority = b.priority) && decide (a.created_at ≤ b.created_at))

/-- Sort key of `_cleanup_buffer` line 346:
`(-x.priority, -x.created_at.timestamp())` ascending. -/
def cleanup_le (a b : BufferEntry) : Bool :=
  decide (b.priority < a.priority) || (decide (a.priority = b.priority) && decide (b.created_at ≤ a.created_at))

/-- `BufferSystem._cleanup_buffer`.  The float thresholds
`max_buffer_size * 0.9` and `int(max_buffer_size * 0.8)` are modelled by the
exact rationals `9 * max / 10` and `(8 * max) / 10`. -/
def cleanup_buffer (nowMs : Nat) (st : BufferState) : BufferState :=
  let kept := st.buffer_entries.filter (fun e => !e.processed && !is_expired nowMs e)
  if 10 * kept.length ≥ 9 * st.max_buffer_size then
    { st with buffer_entries := (kept.mergeSort cleanup_le).take (8 * st.max_buffer_size / 10) }
  else
    { st with buffer_entries := kept }

/-- Result of `BufferSystem.add_entry`: the new buffer state together with
either the fresh `entry_id` or the "Buffer is full" exception. -/
def add_entry (nowMs : Nat) (st : BufferState) (buffer_type : BufferType)
    (data : PyDict) (priority : Int) (ttl_seconds : Option Nat) :
    BufferState × Except String String :=
  -- capacity check, one eviction pass, re-check
  if st.buffer_entries.length ≥ st.max_buffer_size then
    let st1 := cleanup_buffer nowMs st
    if st1.buffer_entries.length ≥ st.max_buffer_size then
      (st1, Except.error "Buffer is full")
    else
      add_entry_unchecked nowMs st1 buffer_type data priority ttl_seconds
  else
    add_entry_unchecked nowMs st buffer_type data priority ttl_seconds
where
  /-- Tail of `add_entry` after the capacity check: TTL handling
  (`if ttl_seconds:` treats `0` as falsy), entry creation, append, stable
  sort by `(-priority, created_at)`. -/
  add_entry_unchecked (nowMs : Nat) (st : BufferState) (buffer_type : BufferType)
      (data : PyDict) (priority : Int) (ttl_seconds : Option Nat) :
      BufferState × Except String String :=
    let expires_at : Option Nat :=
      match ttl_seconds with
      | some t => if t ≠ 0 then some (nowMs + 1000 * t) else none
      | none => none
    let entry := mkBufferEntry nowMs buffer_type data priority expires_at
    ({ st with buffer_entries := (st.buffer_entries ++ [entry]).mergeSort entry_le },
      Except.ok entry.entry_id)

/-- The `{timestamp, entries, metrics}` snapshot written by
`BufferSystem.save_to_file` (metrics are irrelevant to the claims and omitted). -/
structure Snapshot where
  timestamp : Nat
  entries : List EntryDict
deriving DecidableEq, Repr

/-- `BufferSystem.save_to_file` (the data written; the temp-file/rename
mechanics do not change the content). -/
def save_to_file (nowMs : Nat) (st : BufferState) : Snapshot :=
  { timestamp := nowMs
    entries := st.buffer_entries.map BufferEntry.to_dict }

/-- `BufferSystem.load_from_file`: rebuilds each entry with `from_dict` and
keeps it unless it is already expired, preserving file order. -/
def load_from_file (nowMs : Nat) (snap : Snapshot) : List BufferEntry :=
  (snap.entries.map (BufferEntry.from_dict nowMs)).filter (fun e => !is_expired nowMs e)

/-! ### Sync Manager (`sync_manager.py`) -/

/-- `SyncManager.is_synchronized`.  The history is modelled by the
`synchronized` flags of the recorded sync events (all that the method
reads).  Integer/float comparison `count >= len(recent)/2` is exact at these
magnitudes and is modelled as `len ≤ 2 * count`. -/
def is_synchronized (sync_history : List Bool) : Bool :=
  if sync_history.isEmpty then false
  else
    let recent_events := sync_history.drop (sync_history.length - 5)
    let synchronized_count := recent_events.countP (fun b => b)
    decide (recent_events.length ≤ 2 * synchronized_count)

/-! ### Command Router (`core/command_router.py`) -/

/-- `CommandStatus` enum. -/
inductive CommandStatus where
  | pending
  | processing
  | completed
  | failed
  | timeout
  | cancelled
deriving DecidableEq, Repr, Inhabited

/-- `Command` object. -/
structure Command where
  command_id : String
  command_type : String
  target : String
  payload : PyDict
  source : String
  status : CommandStatus
  created_at : Nat
  started_at : Option Nat
  completed_at : Option Nat
  result : Option String
  error : Option String
  retry_count : Nat
deriving DecidableEq, Repr, Inhabited

/-- Identifier format of `CommandRouter.queue_command`:
`f"{int(time.time() * 1000)}_{len(self.active_commands)}"`. -/
def command_id_fmt (nowMs activeCount : Nat) : String :=
  Nat.repr nowMs ++ "_" ++ Nat.repr activeCount

/-- `Command.__init__`. -/
def mkCommand (command_id command_type target : String) (payload : PyDict)
    (source : String) (nowMs : Nat) : Command :=
  { command_id := command_id
    command_type := command_type
    target := target
    payload := payload
    source := source
    status := CommandStatus.pending
    created_at := nowMs
    started_at := none
    completed_at := none
    result := none
    error := none
    retry_count := 0 }

/-- Insert-or-replace on an association list: Python `dict` assignment
`d[k] = v` (existing key keeps its position, new key is appended). -/
def dictInsert {β : Type} (k : String) (v : β) : List (String × β) → List (String × β)
  | [] => [(k, v)]
  | (k', v') :: rest =>
    if k' = k then (k, v) :: rest else (k', v') :: dictInsert k v rest

/-- Router state touched by `queue_command`: the bounded `asyncio.Queue`
(list of queued commands plus the configured `MAX_COMMAND_QUEUE`) and the
`active_commands` dict. -/
structure RouterState where
  command_queue : List Command
  max_command_queue : Nat
  active_commands : List (String × Command)
deriving DecidableEq, Repr

/-- Outcome of one `queue_command` call.  `blocked` is the suspension of
`await self.command_queue.put(command)` on a full queue; `raised msg` would
be the `raise` in the `except asyncio.QueueFull` branch — `Queue.put`
(unlike `put_nowait`) suspends instead of raising `QueueFull`, so no
execution path of `queue_command` produces it. -/
inductive QueueCommandResult where
  | ok (command_id : String) (st : RouterState)
  | blocked
  | raised (msg : String)
deriving DecidableEq, Repr

/-- `CommandRouter.queue_command`.  A `maxsize` of `0` makes the
`asyncio.Queue` unbounded; otherwise `put` suspends while
`qsize() >= maxsize`. -/
def queue_command (st : RouterState) (nowMs : Nat) (command_type target : String)
    (payload : PyDict) (source : String) : QueueCommandResult :=
  let command_id := command_id_fmt nowMs st.active_commands.length
  let command := mkCommand command_id command_type target payload source nowMs
  if st.max_command_queue = 0 ∨ st.command_queue.length < st.max_command_queue then
    QueueCommandResult.ok command_id
      { st with
        command_queue := st.command_queue ++ [command]
        active_commands := dictInsert command_id command st.active_commands }
  else
    QueueCommandResult.blocked

/-! ### Failsafe Monitor (`core/failsafe_monitor.py`) -/

/-- `FailsafeLevel` enum. -/
inductive FailsafeLevel where
  | info
  | warning
  | critical
  | emergency
deriving DecidableEq, Repr, Inhabited

/-- `FailsafeCondition` enum. -/
inductive FailsafeCondition where
  | sync_failure
  | heartbeat_failure
  | component_failure
  | resource_exhaustion
  | command_failure
  | network_failure
  | custom
deriving DecidableEq, Repr, Inhabited

/-- Identifier format of `FailsafeEvent.__init__`:
`f"fs_{int(time.time() * 1000)}"`. -/
def fs_event_id (nowMs : Nat) : String := "fs_" ++ Nat.repr nowMs

/-- `FailsafeEvent` object (action bookkeeping omitted). -/
structure FailsafeEvent where
  event_id : String
  condition : FailsafeCondition
  level : FailsafeLevel
  message : String
  component : String
  timestamp : Nat
  acknowledged : Bool
  resolved : Bool
deriving DecidableEq, Repr, Inhabited

/-- `FailsafeEvent.__init__`. -/
def mkFailsafeEvent (nowMs : Nat) (condition : FailsafeCondition)
    (level : FailsafeLevel) (message component : String) : FailsafeEvent :=
  { event_id := fs_event_id nowMs
    condition := condition
    level := level
    message := message
    component := component
    timestamp := nowMs
    acknowledged := false
    resolved := false }

/-- Per-component slot of `FailsafeMonitor.health_status`. -/
structure HealthStatus where
  healthy : Bool
  consecutive_failures : Nat
deriving DecidableEq, Repr

/-- One iteration of the per-component block in
`FailsafeMonitor.monitor_system_health`: update the health slot from the
check result and emit the `component_failure` events it triggers (severity
levels; the condition is always `COMPONENT_FAILURE` here). -/
def health_check_step (st : HealthStatus) (is_healthy : Bool) :
    HealthStatus × List FailsafeLevel :=
  if is_healthy then
    ({ healthy := true, consecutive_failures := 0 }, [])
  else
    let cf := st.consecutive_failures + 1
    let events :=
      if cf = 1 then [FailsafeLevel.warning]
      else if 3 ≤ cf then [FailsafeLevel.critical]
      else []
    ({ healthy := false, consecutive_failures := cf }, events)

/-- Iterated health checks for one component; returns the final slot and,
per check, the list of events that check emitted. -/
def run_health_checks (st : HealthStatus) :
    List Bool → HealthStatus × List (List FailsafeLevel)
  | [] => (st, [])
  | b :: bs =>
    let step := health_check_step st b
    let rest := run_health_checks step.1 bs
    (rest.1, step.2 :: rest.2)

/-! ### Toggle Dispatcher (`core/toggle_dispatcher.py`)

Callbacks receive the toggle for observation; the embedding records how many
times `_execute_callbacks` runs (each run walks the state-change list and
then the matching on/off list once).  Validators, which return a boolean
verdict for `(toggle, new_state)`, are passed as pure functions. -/

/-- `ToggleState` enum. -/
inductive ToggleState where
  | on
  | off
  | transitioning
  | error
  | unknown
deriving DecidableEq, Repr, Inhabited

/-- One record of `Toggle.state_history`. -/
structure ToggleHistoryEntry where
  timestamp : Nat
  from_state : ToggleState
  to_state : ToggleState
  source : String
  change_count : Nat
deriving DecidableEq, Repr, Inhabited

/-- `Toggle` object state (the callback/validator function lists live
outside the structure so that it has decidable equality). -/
structure Toggle where
  toggle_id : String
  name : String
  state : ToggleState
  previous_state : Option ToggleState
  created_at : Nat
  last_changed : Nat
  change_count : Nat
  metadata : PyDict
  state_history : List ToggleHistoryEntry
  max_history : Nat
deriving DecidableEq, Repr, Inhabited

/-- `Toggle.__init__`. -/
def mkToggle (toggle_id name : String) (initial_state : ToggleState)
    (nowMs : Nat) : Toggle :=
  { toggle_id := toggle_id
    name := name
    state := initial_state
    previous_state := none
    created_at := nowMs
    last_changed := nowMs
    change_count := 0
    metadata := []
    state_history := []
    max_history := 100 }

/-- Result of `Toggle.change_state`: the updated toggle, the returned
boolean, and the number of `_execute_callbacks` runs (0 or 1). -/
structure ChangeStateResult where
  toggle : Toggle
  ok : Bool
  callback_runs : Nat
deriving DecidableEq, Repr

/-- `Toggle.change_state`.  A validator returning `false` (or raising, which
the source also turns into `return False`) aborts with no mutation; the
no-op branch `new_state == self.state` returns `True` untouched. -/
def change_state (validators : List (Toggle → ToggleState → Bool)) (t : Toggle)
    (new_state : ToggleState) (source : String) (nowMs : Nat) : ChangeStateResult :=
  if new_state = t.state then
    { toggle := t, ok := true, callback_runs := 0 }
  else if validators.all (fun v => v t new_state) then
    let history_entry : ToggleHistoryEntry :=
      { timestamp := nowMs
        from_state := t.state
        to_state := new_state
        source := source
        change_count := t.change_count }
    let history1 := t.state_history ++ [history_entry]
    let history2 :=
      if t.max_history < history1.length then history1.drop (history1.length - t.max_history)
      else history1
    { toggle :=
        { t with
          previous_state := some t.state
          state_history := history2
          state := new_state
          last_changed := nowMs
          change_count := t.change_count + 1 }
      ok := true
      callback_runs := 1 }
  else
    { toggle := t, ok := false, callback_runs := 0 }

/-- `ToggleDispatcher` state: the `toggles` dict. -/
structure ToggleDispatcher where
  toggles : List (String × Toggle)
deriving DecidableEq, Repr

/-- `ToggleDispatcher.create_toggle`: an existing id returns the stored
toggle unchanged; otherwise a fresh toggle (with the optional metadata, an
empty dict being falsy) is inserted. -/
def create_toggle (d : ToggleDispatcher) (toggle_id name : String)
    (initial_state : ToggleState) (metadata : Option PyDict) (nowMs : Nat) :
    ToggleDispatcher × Toggle :=
  match d.toggles.lookup toggle_id with
  | some t => (d, t)
  | none =>
    let t0 := mkToggle toggle_id name initial_state nowMs
    let t :=
      match metadata with
      | some m => if m.isEmpty then t0 else { t0 with metadata := m }
      | none => t0
    ({ d with toggles := dictInsert toggle_id t d.toggles }, t)

/-! ### Load Balancer (`core/load_balancer.py`) -/

/-- `TaskPriority` enum with its `.value`. -/
inductive TaskPriority where
  | low
  | normal
  | high
  | critical
deriving DecidableEq, Repr, Inhabited

/-- `TaskPriority.value` (`LOW = 1`, `NORMAL = 2`, `HIGH = 3`, `CRITICAL = 4`). -/
def TaskPriority.value : TaskPriority → Nat
  | .low => 1
  | .normal => 2
  | .high => 3
  | .critical => 4

/-- `Task` object. -/
structure Task where
  task_id : String
  task_type : String
  payload : PyDict
  priority : TaskPriority
  created_at : Nat
  assigned_at : Option Nat
  completed_at : Option Nat
  worker_id : Option String
  result : Option String
  error : Option String
  retries : Nat
deriving DecidableEq, Repr, Inhabited

/-- `Task.__lt__`: `self.priority.value > other.priority.value`. -/
def task_lt (a b : Task) : Bool := decide (b.priority.value < a.priority.value)

/-! #### The CPython `heapq` algorithms

`heapq.heappush`/`heappop` as in CPython's `Lib/heapq.py`, specialised to
`Task.__lt__`.  The while loops are expressed with an explicit structural
fuel argument; each call site passes fuel that provably exceeds the number
of iterations (`_siftdown` strictly decreases `pos`, `_siftup` strictly
increases it below `endpos`), so the zero-fuel branches are never reached. -/

/-- `heapq._siftdown(heap, startpos, pos)` with `newitem = heap[pos]` read by
the caller: while `pos > startpos` and `newitem < heap[parentpos]`, move the
parent down; finally write `newitem` at the current position. -/
def siftdownAux : Nat → Task → List Task → Nat → Nat → List Task
  | 0, newitem, heap, _, pos => heap.set pos newitem
  | fuel + 1, newitem, heap, startpos, pos =>
    if startpos < pos then
      let parentpos := (pos - 1) / 2
      let parent := heap.getD parentpos default
      if task_lt newitem parent then
        siftdownAux fuel newitem (heap.set pos parent) startpos parentpos
      else heap.set pos newitem
    else heap.set pos newitem

/-- `heapq._siftdown(heap, startpos, pos)`; `pos + 1` units of fuel suffice
because `pos` strictly decreases. -/
def siftdown (heap : List Task) (startpos pos : Nat) : List Task :=
  siftdownAux (pos + 1) (heap.getD pos default) heap startpos pos

/-- The child-chasing loop of `heapq._siftup`: while the left child exists,
move the smaller child up and descend to it; returns the final array and
leaf position. -/
def siftupAux : Nat → Nat → List Task → Nat → List Task × Nat
  | 0, _, heap, pos => (heap, pos)
  | fuel + 1, endpos, heap, pos =>
    let childpos := 2 * pos + 1
    if childpos < endpos then
      let rightpos := childpos + 1
      let cpos :=
        if rightpos < endpos && !task_lt (heap.getD childpos default) (heap.getD rightpos default)
        then rightpos else childpos
      siftupAux fuel endpos (heap.set pos (heap.getD cpos default)) cpos
    else (heap, pos)

/-- `heapq._siftup(heap, pos)` (here always called with `pos = 0`): chase the
chain of smaller children to a leaf, put `newitem` there, and bubble it up
with `_siftdown`.  `endpos` units of fuel suffice because the position
strictly increases below `endpos`. -/
def siftup (heap : List Task) (pos : Nat) : List Task :=
  let endpos := heap.length
  let newitem := heap.getD pos default
  let chased := siftupAux endpos endpos heap pos
  siftdown (chased.1.set chased.2 newitem) pos chased.2

/-- `heapq.heappush`: append, then `_siftdown(heap, 0, len(heap) - 1)`. -/
def heappush (heap : List Task) (item : Task) : List Task :=
  siftdown (heap ++ [item]) 0 heap.length

/-- `heapq.heappop`: pop the last element; on a non-empty remainder return
the root, move the last element there and `_siftup(heap, 0)`.  An empty heap
raises `IndexError` (`none` here); `process_queue` guards against it. -/
def heappop (heap : List Task) : Option (Task × List Task) :=
  match heap.getLast? with
  | none => none
  | some lastelt =>
    let rest := heap.dropLast
    if rest.isEmpty then some (lastelt, rest)
    else some (rest.getD 0 default, siftup (rest.set 0 lastelt) 0)

/-- `Worker` object (`load_score`, a float recomputed from
`active_tasks/max_concurrent` before each resource-aware selection, is not
stored; the strategy compares the exact ratios directly). -/
structure Worker where
  worker_id : String
  max_concurrent : Nat
  active_tasks : List String
  completed_tasks : Nat
  failed_tasks : Nat
  available : Bool
  task_types : List String
deriving DecidableEq, Repr, Inhabited

/-- `LoadBalancer` state relevant to queueing and assignment. -/
structure LBState where
  workers : List Worker
  task_queue : List Task
  active_tasks : List (String × Task)
  current_strategy : String
deriving DecidableEq, Repr

/-- Identifier format of `LoadBalancer.submit_task`:
`f"task_{int(time.time() * 1000)}_{len(self.active_tasks)}"`. -/
def task_id_fmt (nowMs activeCount : Nat) : String :=
  "task_" ++ Nat.repr nowMs ++ "_" ++ Nat.repr activeCount

/-- `LoadBalancer.submit_task`. -/
def submit_task (s : LBState) (nowMs : Nat) (task_type : String) (payload : PyDict)
    (priority : TaskPriority) : String × LBState :=
  let task_id := task_id_fmt nowMs s.active_tasks.length
  let task : Task :=
    { task_id := task_id
      task_type := task_type
      payload := payload
      priority := priority
      created_at := nowMs
      assigned_at := none
      completed_at := none
      worker_id := none
      result := none
      error := none
      retries := 0 }
  (task_id,
    { s with
      task_queue := heappush s.task_queue task
      active_tasks := dictInsert task_id task s.active_tasks })

/-- `LoadBalancer.register_worker` (`task_types or ['*']`: `None` and the
empty list both fall back to the wildcard).  The `workers` dict is keyed by
`worker_id`. -/
def register_worker (s : LBState) (worker_id : String) (max_concurrent : Nat)
    (task_types : Option (List String)) : LBState :=
  let types :=
    match task_types with
    | some l => if l.isEmpty then ["*"] else l
    | none => ["*"]
  let w : Worker :=
    { worker_id := worker_id
      max_concurrent := max_concurrent
      active_tasks := []
      completed_tasks := 0
      failed_tasks := 0
      available := true
      task_types := types }
  { s with
    workers :=
      if s.workers.any (fun x => x.worker_id = worker_id) then
        s.workers.map (fun x => if x.worker_id = worker_id then w else x)
      else s.workers ++ [w] }

/-- `LoadBalancer._get_available_workers`, with each worker paired with its
index in the registry so that the selected object can be written back. -/
def get_available_workers (workers : List Worker) (task_type : String) :
    List (Nat × Worker) :=
  workers.enum.filter (fun p =>
    p.2.available
    && ("*" ∈ p.2.task_types || task_type ∈ p.2.task_types)
    && decide (p.2.active_tasks.length < p.2.max_concurrent))

/-- Python `min(iterable)` with a strict comparison: fold keeping the first
minimal element. -/
def pyMin {β : Type} (lt : β → β → Bool) : β → List β → β
  | best, [] => best
  | best, x :: xs => pyMin lt (if lt x best then x else best) xs

/-- `LoadBalancer._least_loaded_strategy`: `min(workers, key=len(active))`. -/
def least_loaded_strategy (workers : List (Nat × Worker)) : Option (Nat × Worker) :=
  match workers with
  | [] => none
  | b :: rest =>
    some (pyMin (fun x y => decide (x.2.active_tasks.length < y.2.active_tasks.length)) b rest)

/-- `LoadBalancer._round_robin_strategy`: first worker whose
`completed_tasks` equals the minimum (the final `return workers[0]` is
unreachable but kept as the `getD` fallback). -/
def round_robin_strategy (workers : List (Nat × Worker)) : Option (Nat × Worker) :=
  match workers with
  | [] => none
  | b :: rest =>
    let min_completed :=
      (rest.map (fun p => p.2.completed_tasks)).foldl Nat.min b.2.completed_tasks
    some (((b :: rest).find? (fun p => p.2.completed_tasks = min_completed)).getD b)

/-- `LoadBalancer._priority_first_strategy`: for high/critical priority pick
the worker with fewest active tasks, otherwise defer to least-loaded. -/
def priority_first_strategy (workers : List (Nat × Worker)) (task : Task) :
    Option (Nat × Worker) :=
  match workers with
  | [] => none
  | b :: rest =>
    if task.priority = TaskPriority.high ∨ task.priority = TaskPriority.critical then
      some (pyMin (fun x y => decide (x.2.active_tasks.length < y.2.active_tasks.length)) b rest)
    else least_loaded_strategy workers

/-- `LoadBalancer._resource_aware_strategy`: minimise the utilisation ratio
`len(active)/max_concurrent`; the float comparison is modelled by the exact
cross-multiplied comparison (all candidates have `max_concurrent ≥ 1`). -/
def resource_aware_strategy (workers : List (Nat × Worker)) : Option (Nat × Worker) :=
  match workers with
  | [] => none
  | b :: rest =>
    some (pyMin (fun x y =>
      decide (x.2.active_tasks.length * y.2.max_concurrent
        < y.2.active_tasks.length * x.2.max_concurrent)) b rest)

/-- `LoadBalancer.select_worker`: filter by availability/affinity/capacity,
then apply the active strategy (`strategies.get` falls back to
least-loaded). -/
def select_worker (s : LBState) (task : Task) : Option (Nat × Worker) :=
  let available_workers := get_available_workers s.workers task.task_type
  if available_workers.isEmpty then none
  else
    match s.current_strategy with
    | "round_robin" => round_robin_strategy available_workers
    | "least_loaded" => least_loaded_strategy available_workers
    | "priority_first" => priority_first_strategy available_workers task
    | "resource_aware" => resource_aware_strategy available_workers
    | _ => least_loaded_strategy available_workers

/-- `LoadBalancer.assign_task` on the selected registry slot: stamp the task
and add its id to the worker's `active_tasks` dict (existing key keeps the
dict unchanged). -/
def assign_task (s : LBState) (task : Task) (idx : Nat) (w : Worker) (nowMs : Nat) :
    LBState :=
  let w' :=
    { w with
      active_tasks :=
        if task.task_id ∈ w.active_tasks then w.active_tasks
        else w.active_tasks ++ [task.task_id] }
  { s with workers := s.workers.set idx w' }

/-- One iteration of `LoadBalancer.process_queue` when the queue is
non-empty: pop the root task, select a worker, and either assign or push the
task back. -/
def process_queue_step (s : LBState) (nowMs : Nat) : LBState :=
  match heappop s.task_queue with
  | none => s
  | some (task, rest) =>
    let s1 := { s with task_queue := rest }
    match select_worker s1 task with
    | some (idx, w) => assign_task s1 task idx w nowMs
    | none => { s1 with task_queue := heappush rest task }

/-- `LoadBalancer._complete_task`: drop the task from the active dict and
from its worker's `active_tasks`. -/
def complete_task (s : LBState) (task : Task) : LBState :=
  let s1 := { s with active_tasks := s.active_tasks.filter (fun p => p.1 ≠ task.task_id) }
  match task.worker_id with
  | none => s1
  | some wid =>
    { s1 with
      workers := s1.workers.map (fun w =>
        if w.worker_id = wid then { w with active_tasks := w.active_tasks.erase task.task_id }
        else w) }

/-- `LoadBalancer.unregister_worker` (the per-task cancellation only shrinks
`active_tasks` maps; the worker itself is removed from the registry). -/
def unregister_worker (s : LBState) (worker_id : String) : LBState :=
  { s with workers := s.workers.filter (fun w => w.worker_id ≠ worker_id) }

/-- `LoadBalancer.__init__`: empty registry and queue, strategy
`least_loaded`. -/
def initialLB : LBState :=
  { workers := [], task_queue := [], active_tasks := [], current_strategy := "least_loaded" }

/-- Load-balancer states reachable through the public operations. -/
inductive ReachableLB : LBState → Prop where
  | init : ReachableLB initialLB
  | register (s worker_id max_concurrent task_types) :
      ReachableLB s → ReachableLB (register_worker s worker_id max_concurrent task_types)
  | submit (s nowMs task_type payload priority) :
      ReachableLB s → ReachableLB (submit_task s nowMs task_type payload priority).2
  | step (s nowMs) : ReachableLB s → ReachableLB (process_queue_step s nowMs)
  | complete (s task) : ReachableLB s → ReachableLB (complete_task s task)
  | unregister (s worker_id) : ReachableLB s → ReachableLB (unregister_worker s worker_id)
  | set_strategy (s strat) : ReachableLB s → ReachableLB { s with current_strategy := strat }

/-- Task heaps reachable through `heappush`/`heappop` (how
`LoadBalancer.task_queue` is exclusively manipulated). -/
inductive ReachableHeap : List Task → Prop where
  | empty : ReachableHeap []
  | push (heap item) : ReachableHeap heap → ReachableHeap (heappush heap item)
  | pop (heap t rest) : ReachableHeap heap → heappop heap = some (t, rest) → ReachableHeap rest

/-! #### Heap correctness

`Task.__lt__` compares only priority values, so `heapq` maintains a
max-heap on `Task.priority.value`: along every parent/child edge of the
implicit binary tree the parent's priority value is at least the child's.
The two sift routines are verified against this invariant. -/

/-- The quantity `Task.__lt__` compares: `priority.value`. -/
def prio (t : Task) : Nat := t.priority.value

/-- Array index `j` is a child of index `i` in the implicit binary tree. -/
def isChild (j i : Nat) : Prop := j = 2 * i + 1 ∨ j = 2 * i + 2

/-- Total indexing used by the heap routines. -/
def hget (h : List Task) (i : Nat) : Task := h.getD i default

/-- Binary max-heap invariant on priority values. -/
def heapInv (h : List Task) : Prop :=
  ∀ i j, isChild j i → j < h.length → prio (hget h j) ≤ prio (hget h i)

/-- Precondition of the bubble-up loop `_siftdown` for `startpos = 0`, on the
array with `newitem` substituted at `pos`: every edge not pointing into
`pos` satisfies the heap property, and the children of `pos` (if any) are
also dominated by the parent of `pos`. -/
def BInv (h : List Task) (p : Nat) : Prop :=
  (∀ i j, isChild j i → j < h.length → j ≠ p → prio (hget h j) ≤ prio (hget h i)) ∧
  (0 < p → ∀ j, isChild j p → j < h.length → prio (hget h j) ≤ prio (hget h ((p - 1) / 2)))

/-- Invariant of the child-chasing loop of `_siftup` at the hole position:
edges not touching the hole satisfy the heap property, and the hole's
children are dominated by the hole's parent. -/
def SInv (h : List Task) (pos : Nat) : Prop :=
  (∀ i j, isChild j i → j < h.length → i ≠ pos → j ≠ pos →
    prio (hget h j) ≤ prio (hget h i)) ∧
  (0 < pos → ∀ j, isChild j pos → j < h.length →
    prio (hget h j) ≤ prio (hget h ((pos - 1) / 2)))

/-- The invariant claimed in the specification: no worker ever holds more
than `max_concurrent` active tasks. -/
def workersInv (s : LBState) : Prop :=
  ∀ w ∈ s.workers, w.active_tasks.length ≤ w.max_concurrent

/-! ### Concrete instances used by witnesses and counterexamples -/

/-- A toggle as created by `Toggle.__init__` with initial state `OFF`. -/
def c5Toggle : Toggle := mkToggle "t" "T" ToggleState.off 0

/-- A dispatcher already holding a toggle under id `"a"`. -/
def cToggleA : Toggle := mkToggle "a" "A" ToggleState.on 5

def cDispatcher : ToggleDispatcher := { toggles := [("a", cToggleA)] }

def cCommand : Command := mkCommand "900_0" "noop" "system" [] "system" 900

/-- A router whose bounded queue is at capacity (`MAX_COMMAND_QUEUE = 1`). -/
def cFullRouter : RouterState :=
  { command_queue := [cCommand], max_command_queue := 1,
    active_commands := [("900_0", cCommand)] }

/-- A buffer configured with cap 0: at capacity, and still at capacity after
the eviction pass. -/
def cFullBuffer : BufferState := { buffer_entries := [], max_buffer_size := 0 }

/-- A load balancer with one registered worker (`max_concurrent = 2`). -/
def cWorkerState : LBState := register_worker initialLB "w1" 2 none

def cWorker : Worker :=
  { worker_id := "w1", max_concurrent := 2, active_tasks := [], completed_tasks := 0,
    failed_tasks := 0, available := true, task_types := ["*"] }

def cTask : Task :=
  { task_id := "task_1_0", task_type := "t", payload := [], priority := TaskPriority.normal,
    created_at := 1, assigned_at := none, completed_at := none, worker_id := none,
    result := none, error := none, retries := 0 }

def cTaskN : Task := { cTask with task_id := "n", priority := TaskPriority.normal }

def cTaskC : Task := { cTask with task_id := "c", priority := TaskPriority.critical }

/-- Equal-priority tasks distinguished only by id and creation time. -/
def tieTask (id : String) (created : Nat) : Task :=
  { task_id := id, task_type := "t", payload := [], priority := TaskPriority.normal,
    created_at := created, assigned_at := none, completed_at := none, worker_id := none,
    result := none, error := none, retries := 0 }

/-! ### Decimal representation of natural numbers

The Python sources generate identifiers by interpolating integer timestamps
and counters into strings.  The facts needed about decimal notation are:
`Nat.repr` is injective, and its characters are decimal digits (in
particular never an underscore, the separator used by the id formats). -/

theorem toDigitsCore_append (b : Nat) :
    ∀ (f n : Nat) (l : List Char),
      Nat.toDigitsCore b f n l = Nat.toDigitsCore b f n [] ++ l := by
  intro f
  induction f with
  | zero => intro n l; simp [Nat.toDigitsCore]
  | succ f ih =>
    intro n l
    simp only [Nat.toDigitsCore]
    by_cases h : n / b = 0
    · simp [h]
    · simp only [h, if_false]
      rw [ih (n / b) [Nat.digitChar (n % b)], ih (n / b) (Nat.digitChar (n % b) :: l),
        List.append_assoc]
      rfl

theorem toDigitsCore_fuel :
    ∀ (f g n : Nat) (l : List Char), n < f → n < g →
      Nat.toDigitsCore 10 f n l = Nat.toDigitsCore 10 g n l := by
  intro f
  induction f with
  | zero => intro g n l hf; omega
  | succ f ih =>
    intro g n l hf hg
    cases g with
    | zero => omega
    | succ g =>
      simp only [Nat.toDigitsCore]
      by_cases h : n / 10 = 0
      · simp [h]
      · simp only [h, if_false]
        have hn : 0 < n := by
          rcases Nat.eq_zero_or_pos n with h0 | h0
          · exact absurd (by simp [h0]) h
          · exact h0
        have hdiv : n / 10 < n := Nat.div_lt_self hn (by norm_num)
        exact ih g (n / 10) (Nat.digitChar (n % 10) :: l) (by omega) (by omega)

theorem toDigits_zero : Nat.toDigits 10 0 = ['0'] := rfl

theorem toDigits_pos :
    ∀ n : Nat, 0 < n →
      Nat.toDigits 10 n = ((Nat.digits 10 n).map Nat.digitChar).reverse := by
  intro n
  induction n using Nat.strong_induction_on with
  | _ n ih =>
    intro hn
    rw [Nat.digits_def' (b := 10) (by norm_num) hn]
    simp only [List.map_cons, List.reverse_cons]
    show Nat.toDigitsCore 10 (n + 1) n [] = _
    simp only [Nat.toDigitsCore]
    by_cases h : n / 10 = 0
    · simp [h, Nat.digits_zero]
    · simp only [h, if_false]
      have hdiv : n / 10 < n := Nat.div_lt_self hn (by norm_num)
      have hpos : 0 < n / 10 := Nat.pos_of_ne_zero h
      rw [toDigitsCore_append 10 n (n / 10) [Nat.digitChar (n % 10)],
        toDigitsCore_fuel n (n / 10 + 1) (n / 10) [] (by omega) (by omega)]
      rw [show Nat.toDigitsCore 10 (n / 10 + 1) (n / 10) [] = Nat.toDigits 10 (n / 10) from rfl,
        ih (n / 10) hdiv hpos]

theorem digitChar_inj_lt :
    ∀ a, a < 10 → ∀ b, b < 10 → Nat.digitChar a = Nat.digitChar b → a = b := by decide

theorem digitChar_ne_underscore : ∀ a, a < 10 → Nat.digitChar a ≠ '_' := by decide

theorem map_digitChar_inj :
    ∀ (L1 L2 : List Nat), (∀ d ∈ L1, d < 10) → (∀ d ∈ L2, d < 10) →
      L1.map Nat.digitChar = L2.map Nat.digitChar → L1 = L2 := by
  intro L1
  induction L1 with
  | nil => intro L2 _ _ h; cases L2 <;> simp_all
  | cons a L1 ih =>
    intro L2 h1 h2 h
    cases L2 with
    | nil => simp_all
    | cons b L2 =>
      simp only [List.map_cons, List.cons.injEq] at h
      have ha : a = b :=
        digitChar_inj_lt a (h1 a (by simp)) b (h2 b (by simp)) h.1
      have := ih L2 (fun d hd => h1 d (by simp [hd])) (fun d hd => h2 d (by simp [hd])) h.2
      simp [ha, this]

theorem toDigits_injective :
    ∀ m n : Nat, Nat.toDigits 10 m = Nat.toDigits 10 n → m = n := by
  have key : ∀ n : Nat, 0 < n → Nat.toDigits 10 n = ['0'] → False := by
    intro n hn h
    rw [toDigits_pos n hn] at h
    have h' : (Nat.digits 10 n).map Nat.digitChar = ['0'] := by
      have := congrArg List.reverse h
      simpa using this
    rcases hd : Nat.digits 10 n with _ | ⟨d, ds⟩
    · simp [hd] at h'
    · rw [hd] at h'
      simp only [List.map_cons, List.cons.injEq, List.map_eq_nil_iff] at h'
      have hdlt : d < 10 := Nat.digits_lt_base (by norm_num) (by rw [hd]; simp)
      have hd0 : d = 0 := digitChar_inj_lt d hdlt 0 (by norm_num) (by simpa using h'.1)
      have : n = 0 := by
        have := Nat.ofDigits_digits 10 n
        rw [hd, h'.2, hd0] at this
        simpa [Nat.ofDigits_cons, Nat.ofDigits_nil] using this.symm
      omega
  intro m n h
  rcases Nat.eq_zero_or_pos m with hm | hm <;> rcases Nat.eq_zero_or_pos n with hn | hn
  · omega
  · subst hm; rw [toDigits_zero] at h; exact absurd h.symm (fun h' => key n hn h')
  · subst hn; rw [toDigits_zero] at h; exact absurd h (fun h' => key m hm h')
  · rw [toDigits_pos m hm, toDigits_pos n hn] at h
    have h' := List.reverse_injective h
    have hdm : ∀ d ∈ Nat.digits 10 m, d < 10 := fun d hd => Nat.digits_lt_base (by norm_num) hd
    have hdn : ∀ d ∈ Nat.digits 10 n, d < 10 := fun d hd => Nat.digits_lt_base (by norm_num) hd
    have hdig := map_digitChar_inj _ _ hdm hdn h'
    calc m = Nat.ofDigits 10 (Nat.digits 10 m) := (Nat.ofDigits_digits 10 m).symm
    _ = Nat.ofDigits 10 (Nat.digits 10 n) := by rw [hdig]
    _ = n := Nat.ofDigits_digits 10 n

theorem repr_data (n : Nat) : (Nat.repr n).data = Nat.toDigits 10 n := by
  show ((Nat.toDigits 10 n).asString).data = Nat.toDigits 10 n
  exact List.toList_asString _

theorem repr_injective : ∀ m n : Nat, Nat.repr m = Nat.repr n → m = n := by
  intro m n h
  exact toDigits_injective m n (by rw [← repr_data, ← repr_data, h])

theorem repr_no_underscore (n : Nat) : '_' ∉ (Nat.repr n).data := by
  rw [repr_data]
  intro hmem
  rcases Nat.eq_zero_or_pos n with hn | hn
  · subst hn; rw [toDigits_zero] at hmem; simp at hmem
  · rw [toDigits_pos n hn] at hmem
    rw [List.mem_reverse] at hmem
    rcases List.mem_map.mp hmem with ⟨d, hd, hdc⟩
    exact digitChar_ne_underscore d (Nat.digits_lt_base (by norm_num) hd) hdc

/-- Splitting lemma for strings of the form `as ++ '_' :: bs` where neither
numeral part contains an underscore. -/
theorem append_underscore_inj :
    ∀ (l1 l2 m1 m2 : List Char), '_' ∉ l1 → '_' ∉ l2 →
      l1 ++ '_' :: m1 = l2 ++ '_' :: m2 → l1 = l2 ∧ m1 = m2 := by
  intro l1
  induction l1 with
  | nil =>
    intro l2 m1 m2 _ h2 h
    cases l2 with
    | nil => simpa using h
    | cons c l2 =>
      simp only [List.nil_append, List.cons_append, List.cons.injEq] at h
      exact absurd (by simp [← h.1]) h2
  | cons c l1 ih =>
    intro l2 m1 m2 h1 h2 h
    cases l2 with
    | nil =>
      simp only [List.cons_append, List.nil_append, List.cons.injEq] at h
      exact absurd (by simp [h.1]) h1
    | cons c' l2 =>
      simp only [List.cons_append, List.cons.injEq] at h
      have := ih l2 m1 m2 (fun hm => h1 (by simp [hm])) (fun hm => h2 (by simp [hm])) h.2
      exact ⟨by simp [h.1, this.1], this.2⟩

theorem task_lt_iff (a b : Task) : task_lt a b = true ↔ prio b < prio a := by
  simp [task_lt, prio]

theorem isChild.parent_eq {i j : Nat} (h : isChild j i) : (j - 1) / 2 = i := by
  rcases h with h | h <;> omega

theorem isChild.pos_lt {i j : Nat} (h : isChild j i) : i < j := by
  rcases h with h | h <;> omega

theorem isChild_parent {j : Nat} (h : 0 < j) : isChild j ((j - 1) / 2) := by
  unfold isChild; omega

theorem hget_set_self (l : List Task) (i : Nat) (a : Task) (h : i < l.length) :
    hget (l.set i a) i = a := by
  simp [hget, List.getD_eq_getElem?_getD, List.getElem?_set_self h]

theorem hget_set_ne (l : List Task) {i j : Nat} (a : Task) (hne : i ≠ j) :
    hget (l.set i a) j = hget l j := by
  simp [hget, List.getD_eq_getElem?_getD, List.getElem?_set_ne hne]

theorem hget_append_left (l1 l2 : List Task) {j : Nat} (h : j < l1.length) :
    hget (l1 ++ l2) j = hget l1 j := by
  simp [hget, List.getD_eq_getElem?_getD, List.getElem?_append_left h]

theorem siftdownAux_succ (fuel : Nat) (newitem : Task) (heap : List Task)
    (startpos pos : Nat) :
    siftdownAux (fuel + 1) newitem heap startpos pos =
      if startpos < pos then
        if task_lt newitem (heap.getD ((pos - 1) / 2) default) then
          siftdownAux fuel newitem (heap.set pos (heap.getD ((pos - 1) / 2) default))
            startpos ((pos - 1) / 2)
        else heap.set pos newitem
      else heap.set pos newitem := rfl

theorem siftdownAux_length :
    ∀ (fuel : Nat) (newitem : Task) (heap : List Task) (startpos pos : Nat),
      (siftdownAux fuel newitem heap startpos pos).length = heap.length := by
  intro fuel
  induction fuel with
  | zero => intro newitem heap startpos pos; simp [siftdownAux]
  | succ fuel ih =>
    intro newitem heap startpos pos
    rw [siftdownAux_succ]
    by_cases h1 : startpos < pos
    · rw [if_pos h1]
      by_cases h2 : task_lt newitem (heap.getD ((pos - 1) / 2) default) = true
      · rw [if_pos h2, ih, List.length_set]
      · rw [if_neg h2, List.length_set]
    · rw [if_neg h1, List.length_set]

/-- Bubbling `newitem` up from `pos` restores the full heap invariant. -/
theorem siftdownAux_inv :
    ∀ (fuel p : Nat) (newitem : Task) (h : List Task),
      p < fuel → p < h.length → BInv (h.set p newitem) p →
      heapInv (siftdownAux fuel newitem h 0 p) := by
  intro fuel
  induction fuel with
  | zero => intro p newitem h hf; omega
  | succ fuel ih =>
    intro p newitem h hf hlen hB
    obtain ⟨hB1, hB2⟩ := hB
    have hAlen : (h.set p newitem).length = h.length := List.length_set h p newitem
    rw [siftdownAux_succ]
    by_cases hp : 0 < p
    · rw [if_pos hp]
      have hqp : (p - 1) / 2 < p := by omega
      have hqlen : (p - 1) / 2 < h.length := by omega
      have hAq : hget (h.set p newitem) ((p - 1) / 2) = hget h ((p - 1) / 2) :=
        hget_set_ne h newitem (by omega)
      have hAp : hget (h.set p newitem) p = newitem := hget_set_self h p newitem hlen
      by_cases hlt : task_lt newitem (h.getD ((p - 1) / 2) default) = true
      · rw [if_pos hlt]
        have hplt : prio (hget h ((p - 1) / 2)) < prio newitem := (task_lt_iff _ _).mp hlt
        -- the recursive call's substituted array is the swap of positions
        -- `p` and `(p-1)/2` in the current substituted array
        refine ih ((p - 1) / 2) newitem (h.set p (h.getD ((p - 1) / 2) default))
          (by omega) (by rw [List.length_set]; omega) ⟨?_, ?_⟩
        · intro i j hij hjlen hjq
          rw [List.length_set, List.length_set] at hjlen
          by_cases hjp : j = p
          · -- edge into `p`: its parent is `(p-1)/2`, which now holds `newitem`
            rw [hjp] at hij ⊢
            have hiq : i = (p - 1) / 2 := by have := hij.parent_eq; omega
            rw [hiq]
            rw [hget_set_self _ _ _ (by rw [List.length_set]; omega),
              hget_set_ne _ _ (by omega), hget_set_self _ _ _ hlen]
            exact Nat.le_of_lt hplt
          · by_cases hip : i = p
            · -- edge out of `p`, which now holds the old parent value
              rw [hip] at hij ⊢
              rw [hget_set_ne _ _ (Ne.symm hjq), hget_set_ne _ _ (Ne.symm hjp),
                hget_set_ne _ _ (show (p - 1) / 2 ≠ p by omega), hget_set_self _ _ _ hlen]
              have := hB2 hp j hij (by omega)
              rw [hget_set_ne _ _ (Ne.symm hjp), hAq] at this
              exact this
            · by_cases hiq : i = (p - 1) / 2
              · -- edge out of `(p-1)/2`, which now holds `newitem`
                rw [hiq] at hij ⊢
                rw [hget_set_self _ _ _ (by rw [List.length_set]; omega),
                  hget_set_ne _ _ (Ne.symm hjq), hget_set_ne _ _ (Ne.symm hjp)]
                have := hB1 ((p - 1) / 2) j hij (by omega) hjp
                rw [hget_set_ne _ _ (Ne.symm hjp), hAq] at this
                exact Nat.le_trans this (Nat.le_of_lt hplt)
              · -- edge not touching `p` or `(p-1)/2`
                rw [hget_set_ne _ _ (Ne.symm hjq), hget_set_ne _ _ (Ne.symm hjp),
                  hget_set_ne _ _ (Ne.symm hiq), hget_set_ne _ _ (Ne.symm hip)]
                have := hB1 i j hij (by omega) hjp
                rwa [hget_set_ne _ _ (Ne.symm hjp), hget_set_ne _ _ (Ne.symm hip)] at this
        · intro hq0 j hij hjlen
          rw [List.length_set, List.length_set] at hjlen
          have hrq : ((p - 1) / 2 - 1) / 2 < (p - 1) / 2 := by omega
          have hrp : ((p - 1) / 2 - 1) / 2 ≠ p := by omega
          have hrnq : ((p - 1) / 2 - 1) / 2 ≠ (p - 1) / 2 := by omega
          have hAr : hget (((h.set p (h.getD ((p - 1) / 2) default))).set ((p - 1) / 2) newitem)
              (((p - 1) / 2 - 1) / 2) = hget h (((p - 1) / 2 - 1) / 2) := by
            rw [hget_set_ne _ _ (Ne.symm hrnq), hget_set_ne _ _ (Ne.symm hrp)]
          -- the edge from the grandparent into `(p-1)/2` held before the swap
          have hedge : prio (hget h ((p - 1) / 2)) ≤ prio (hget h (((p - 1) / 2 - 1) / 2)) := by
            have := hB1 (((p - 1) / 2 - 1) / 2) ((p - 1) / 2) (isChild_parent hq0)
              (by omega) (by omega)
            rwa [hAq, hget_set_ne _ _ (Ne.symm hrp)] at this
          rw [hAr]
          by_cases hjp : j = p
          · rw [hjp]
            rw [hget_set_ne _ _ (by omega), hget_set_self _ _ _ hlen]
            exact hedge
          · have hjq : j ≠ (p - 1) / 2 := by have := hij.pos_lt; omega
            rw [hget_set_ne _ _ (Ne.symm hjq), hget_set_ne _ _ (Ne.symm hjp)]
            have := hB1 ((p - 1) / 2) j hij (by omega) hjp
            rw [hget_set_ne _ _ (Ne.symm hjp), hAq] at this
            exact Nat.le_trans this hedge
      · rw [if_neg hlt]
        -- `newitem` fits below its parent: the array with `newitem` at `pos`
        -- is already a heap
        intro i j hij hjlen
        rw [List.length_set] at hjlen
        by_cases hjp : j = p
        · rw [hjp] at hij ⊢
          have hiq : i = (p - 1) / 2 := by have := hij.parent_eq; omega
          rw [hiq]
          rw [hAp, hAq]
          have : ¬ prio (hget h ((p - 1) / 2)) < prio newitem := by
            intro hcon
            exact hlt ((task_lt_iff _ _).mpr hcon)
          omega
        · exact hB1 i j hij (by omega) hjp
    · rw [if_neg hp]
      -- `pos = 0`: no edge points into the root
      intro i j hij hjlen
      rw [List.length_set] at hjlen
      have hj0 : j ≠ p := by have := hij.pos_lt; omega
      exact hB1 i j hij (by omega) hj0

theorem hget_def (h : List Task) (i : Nat) : h.getD i default = hget h i := rfl

theorem siftupAux_succ (fuel endpos : Nat) (heap : List Task) (pos : Nat) :
    siftupAux (fuel + 1) endpos heap pos =
      if 2 * pos + 1 < endpos then
        siftupAux fuel endpos
          (heap.set pos (heap.getD
            (if 2 * pos + 2 < endpos
                && !task_lt (heap.getD (2 * pos + 1) default) (heap.getD (2 * pos + 2) default)
              then 2 * pos + 2 else 2 * pos + 1) default))
          (if 2 * pos + 2 < endpos
              && !task_lt (heap.getD (2 * pos + 1) default) (heap.getD (2 * pos + 2) default)
            then 2 * pos + 2 else 2 * pos + 1)
      else (heap, pos) := rfl

/-- The child-chasing loop preserves length and `SInv`, stays below
`endpos`, and (with enough fuel) stops at a leaf. -/
theorem siftupAux_spec :
    ∀ (fuel endpos : Nat) (h : List Task) (pos : Nat),
      endpos = h.length → pos < endpos → endpos ≤ fuel + pos → SInv h pos →
      (siftupAux fuel endpos h pos).1.length = h.length ∧
      (siftupAux fuel endpos h pos).2 < endpos ∧
      endpos ≤ 2 * (siftupAux fuel endpos h pos).2 + 1 ∧
      SInv (siftupAux fuel endpos h pos).1 (siftupAux fuel endpos h pos).2 := by
  intro fuel
  induction fuel with
  | zero => intro endpos h pos he hpos hfuel; omega
  | succ fuel ih =>
    intro endpos h pos he hpos hfuel hS
    obtain ⟨hS1, hS2⟩ := hS
    rw [siftupAux_succ]
    by_cases hc : 2 * pos + 1 < endpos
    · rw [if_pos hc]
      set cpos := (if 2 * pos + 2 < endpos
          && !task_lt (h.getD (2 * pos + 1) default) (h.getD (2 * pos + 2) default)
        then 2 * pos + 2 else 2 * pos + 1) with hcpos
      have hcchild : isChild cpos pos := by
        rw [hcpos]; unfold isChild
        by_cases hb : (2 * pos + 2 < endpos
            && !task_lt (h.getD (2 * pos + 1) default) (h.getD (2 * pos + 2) default)) = true
        · rw [if_pos hb]; omega
        · rw [if_neg hb]; omega
      have hclt : cpos < endpos := by
        rw [hcpos]
        by_cases hb : (2 * pos + 2 < endpos
            && !task_lt (h.getD (2 * pos + 1) default) (h.getD (2 * pos + 2) default)) = true
        · rw [if_pos hb]
          simpa using (Bool.and_eq_true_iff.mp hb).1
        · rw [if_neg hb]; exact hc
      -- the chosen child dominates both children
      have hchoice : ∀ x, isChild x pos → x < endpos → prio (hget h x) ≤ prio (hget h cpos) := by
        intro x hx hxlt
        by_cases hb : (2 * pos + 2 < endpos
            && !task_lt (h.getD (2 * pos + 1) default) (h.getD (2 * pos + 2) default)) = true
        · have hcr : cpos = 2 * pos + 2 := by rw [hcpos, if_pos hb]
          have hle : prio (hget h (2 * pos + 1)) ≤ prio (hget h (2 * pos + 2)) := by
            have hb2 := (Bool.and_eq_true_iff.mp hb).2
            have hnot : ¬ (task_lt (h.getD (2 * pos + 1) default)
                (h.getD (2 * pos + 2) default) = true) := by
              cases htl : task_lt (h.getD (2 * pos + 1) default) (h.getD (2 * pos + 2) default)
              · simp
              · rw [htl] at hb2; simp at hb2
            have : ¬ prio (hget h (2 * pos + 2)) < prio (hget h (2 * pos + 1)) :=
              fun hcon => hnot ((task_lt_iff _ _).mpr hcon)
            omega
          rcases hx with hx | hx
          · rw [hx, hcr]; exact hle
          · rw [hx, hcr]
        · have hcl : cpos = 2 * pos + 1 := by rw [hcpos, if_neg hb]
          rcases hx with hx | hx
          · rw [hx, hcl]
          · -- the right child either does not exist or is strictly smaller
            rw [Bool.and_eq_true_iff] at hb
            push_neg at hb
            by_cases hr : 2 * pos + 2 < endpos
            · have hb2 := hb (by simpa using hr)
              have h2 : task_lt (h.getD (2 * pos + 1) default)
                  (h.getD (2 * pos + 2) default) = true := by
                cases htl : task_lt (h.getD (2 * pos + 1) default) (h.getD (2 * pos + 2) default)
                · rw [htl] at hb2; simp at hb2
                · rfl
              have hlt' : prio (hget h (2 * pos + 2)) < prio (hget h (2 * pos + 1)) :=
                (task_lt_iff _ _).mp h2
              rw [hx, hcl]
              exact Nat.le_of_lt hlt'
            · omega
      set h' := h.set pos (h.getD cpos default) with hh'
      have hlen' : h'.length = h.length := List.length_set h pos _
      have hpc : pos < cpos := hcchild.pos_lt
      refine (ih endpos h' cpos (by omega) hclt (by omega) ⟨?_, ?_⟩).imp
        (fun hl => by rw [hl, hlen']) (fun hrest => hrest)
      · intro i j hij hjlen hicp hjcp
        rw [hlen'] at hjlen
        by_cases hip : i = pos
        · rw [hip] at hij ⊢
          have hjp : j ≠ pos := by have := hij.pos_lt; omega
          rw [hh', hget_set_ne _ _ (Ne.symm hjp), hget_set_self _ _ _ (by omega), hget_def]
          exact hchoice j hij (by omega)
        · by_cases hjp : j = pos
          · rw [hjp] at hij ⊢
            have hp0 : 0 < pos := by
              rcases Nat.eq_zero_or_pos pos with h0 | h0
              · exfalso; have := hij.pos_lt; omega
              · exact h0
            have hiq : i = (pos - 1) / 2 := by have := hij.parent_eq; omega
            rw [hiq]
            rw [hh', hget_set_self _ _ _ (by omega),
              hget_set_ne _ _ (show pos ≠ (pos - 1) / 2 by omega), hget_def]
            exact hS2 hp0 cpos hcchild (by omega)
          · rw [hh', hget_set_ne _ _ (Ne.symm hjp), hget_set_ne _ _ (Ne.symm hip)]
            exact hS1 i j hij (by omega) hip hjp
      · intro hcp0 j hij hjlen
        rw [hlen'] at hjlen
        have hparent : (cpos - 1) / 2 = pos := hcchild.parent_eq
        have hjp : j ≠ pos := by have h1 := hij.pos_lt; omega
        have hjcp : j ≠ cpos := by have := hij.pos_lt; omega
        rw [hparent, hh', hget_set_ne _ _ (Ne.symm hjp),
          hget_set_self _ _ _ (by omega), hget_def]
        exact hS1 cpos j hij (by omega) (by omega) hjp
    · rw [if_neg hc]
      exact ⟨rfl, hpos, by omega, hS1, hS2⟩

/-- In a heap the root has the maximal priority value. -/
theorem root_max (h : List Task) (hinv : heapInv h) :
    ∀ j, j < h.length → prio (hget h j) ≤ prio (hget h 0) := by
  intro j
  induction j using Nat.strong_induction_on with
  | _ j ih =>
    intro hj
    rcases Nat.eq_zero_or_pos j with h0 | h0
    · rw [h0]
    · have hedge := hinv ((j - 1) / 2) j (isChild_parent h0) hj
      exact Nat.le_trans hedge (ih ((j - 1) / 2) (by omega) (by omega))

/-- `heappush` preserves the heap invariant. -/
theorem heappush_inv (h : List Task) (item : Task) (hinv : heapInv h) :
    heapInv (heappush h item) := by
  unfold heappush siftdown
  have hlast : (h ++ [item]).getD h.length default = item := by
    simp [List.getD_eq_getElem?_getD, List.getElem?_concat_length]
  rw [hlast]
  refine siftdownAux_inv (h.length + 1) h.length item (h ++ [item]) (by omega)
    (by simp) ⟨?_, ?_⟩
  · intro i j hij hjlen hjn
    rw [List.length_set, List.length_append] at hjlen
    have hjlt : j < h.length := by simp at hjlen; omega
    have hilt : i < h.length := Nat.lt_trans hij.pos_lt hjlt
    rw [hget_set_ne _ _ (by omega), hget_set_ne _ _ (by omega),
      hget_append_left _ _ hjlt, hget_append_left _ _ hilt]
    exact hinv i j hij hjlt
  · intro hn0 j hij hjlen
    rw [List.length_set, List.length_append] at hjlen
    exfalso
    have := hij.pos_lt
    rcases hij with hx | hx <;> simp at hjlen <;> omega

/-- `heappop` preserves the heap invariant and returns a task whose priority
value dominates every task that was on the heap. -/
theorem heappop_spec (h : List Task) (t : Task) (rest : List Task)
    (hinv : heapInv h) (hpop : heappop h = some (t, rest)) :
    heapInv rest ∧ ∀ u ∈ h, prio u ≤ prio t := by
  rcases hlast : h.getLast? with _ | lastelt
  · simp only [heappop, hlast] at hpop
    exact Option.noConfusion hpop
  · obtain ⟨ys, rfl⟩ := List.getLast?_eq_some_iff.mp hlast
    simp only [heappop, hlast, List.dropLast_concat] at hpop
    by_cases hys : ys.isEmpty
    · rw [if_pos hys] at hpop
      have hys' : ys = [] := List.isEmpty_iff.mp hys
      subst hys'
      simp only [Option.some.injEq, Prod.mk.injEq] at hpop
      obtain ⟨rfl, rfl⟩ := hpop
      refine ⟨fun i j hij hjlen => by simp at hjlen, ?_⟩
      intro u hu
      simp at hu
      rw [hu]
    · rw [if_neg hys] at hpop
      simp only [Option.some.injEq, Prod.mk.injEq] at hpop
      obtain ⟨rfl, rfl⟩ := hpop
      have hyslen : 0 < ys.length := by
        rcases ys with _ | _
        · simp at hys
        · simp
      have hroot : hget (ys ++ [lastelt]) 0 = hget ys 0 := hget_append_left _ _ hyslen
      constructor
      · -- the sift-up pass restores the invariant on the shortened heap
        have hBlen : (ys.set 0 lastelt).length = ys.length := List.length_set ys 0 lastelt
        have hSB : SInv (ys.set 0 lastelt) 0 := by
          constructor
          · intro i j hij hjlen hi0 hj0
            rw [hBlen] at hjlen
            rw [hget_set_ne _ _ (Ne.symm hj0), hget_set_ne _ _ (Ne.symm hi0)]
            have hjy : j < ys.length := hjlen
            have hiy : i < ys.length := Nat.lt_trans hij.pos_lt hjy
            have := hinv i j hij (by simp; omega)
            rwa [hget_append_left _ _ hjy, hget_append_left _ _ hiy] at this
          · intro h0; omega
        obtain ⟨hClen, hCpos, hCleaf, hCS⟩ :=
          siftupAux_spec (ys.set 0 lastelt).length (ys.set 0 lastelt).length
            (ys.set 0 lastelt) 0 rfl (by omega) (by omega) hSB
        set chased := siftupAux (ys.set 0 lastelt).length (ys.set 0 lastelt).length
          (ys.set 0 lastelt) 0 with hchased
        show heapInv (siftdownAux (chased.2 + 1)
          ((chased.1.set chased.2 ((ys.set 0 lastelt).getD 0 default)).getD chased.2 default)
          (chased.1.set chased.2 ((ys.set 0 lastelt).getD 0 default)) 0 chased.2)
        have hnewitem : (chased.1.set chased.2 ((ys.set 0 lastelt).getD 0 default)).getD
            chased.2 default = (ys.set 0 lastelt).getD 0 default := by
          rw [hget_def, hget_def, hget_set_self]
          omega
        rw [hnewitem]
        refine siftdownAux_inv (chased.2 + 1) chased.2 _ _ (by omega)
          (by rw [List.length_set]; omega) ⟨?_, ?_⟩
        · intro i j hij hjlen hjp
          rw [List.set_set, List.length_set] at hjlen
          by_cases hip : i = chased.2
          · exfalso
            rw [hip] at hij
            have := hij.pos_lt
            rcases hij with hx | hx <;> omega
          · rw [List.set_set, hget_set_ne _ _ (Ne.symm hjp), hget_set_ne _ _ (Ne.symm hip)]
            exact hCS.1 i j hij (by omega) hip hjp
        · intro hp0 j hij hjlen
          exfalso
          rw [List.set_set, List.length_set] at hjlen
          have := hij.pos_lt
          rcases hij with hx | hx <;> omega
      · -- the returned root dominates every element
        intro u hu
        rcases List.mem_iff_getElem.mp hu with ⟨j, hj, rfl⟩
        have hjget : hget (ys ++ [lastelt]) j = (ys ++ [lastelt])[j] := by
          rw [hget, List.getD_eq_getElem (ys ++ [lastelt]) default hj]
        rw [← hjget, hget_def, ← hroot]
        exact root_max (ys ++ [lastelt]) hinv j hj

/-- Every reachable task heap satisfies the heap invariant. -/
theorem reachable_heapInv (heap : List Task) (hr : ReachableHeap heap) : heapInv heap := by
  induction hr with
  | empty => intro i j hij hjlen; simp at hjlen
  | push heap item hr ih => exact heappush_inv heap item ih
  | pop heap t rest hr hpop ih => exact (heappop_spec heap t rest ih hpop).1

/-! #### Worker-capacity invariant -/

/-- `min` over a non-empty iterable yields one of its elements. -/
theorem pyMin_mem {β : Type} (lt : β → β → Bool) :
    ∀ (l : List β) (b : β), pyMin lt b l ∈ b :: l := by
  intro l
  induction l with
  | nil => intro b; simp [pyMin]
  | cons x xs ih =>
    intro b
    show pyMin lt (if lt x b then x else b) xs ∈ b :: x :: xs
    rcases List.mem_cons.mp (ih (if lt x b then x else b)) with h | h
    · rw [h]
      by_cases hlt : lt x b = true
      · rw [if_pos hlt]; simp
      · rw [if_neg hlt]; simp
    · simp [h]

theorem find_getD_mem {β : Type} (p : β → Bool) (l : List β) (b : β) (hb : b ∈ l) :
    (l.find? p).getD b ∈ l := by
  rcases hf : l.find? p with _ | x
  · simpa using hb
  · simpa using List.mem_of_find?_eq_some hf

/-- Every selection strategy returns a member of the candidate list. -/
theorem strategy_mem (avail : List (Nat × Worker)) (task : Task) (strat : String)
    (r : Nat × Worker)
    (h : (match strat with
      | "round_robin" => round_robin_strategy avail
      | "least_loaded" => least_loaded_strategy avail
      | "priority_first" => priority_first_strategy avail task
      | "resource_aware" => resource_aware_strategy avail
      | _ => least_loaded_strategy avail) = some r) :
    r ∈ avail := by
  have hll : ∀ r', least_loaded_strategy avail = some r' → r' ∈ avail := by
    intro r' h'
    rcases avail with _ | ⟨b, rest⟩
    · simp [least_loaded_strategy] at h'
    · simp only [least_loaded_strategy, Option.some.injEq] at h'
      rw [← h']
      exact pyMin_mem _ rest b
  have hrr : ∀ r', round_robin_strategy avail = some r' → r' ∈ avail := by
    intro r' h'
    rcases avail with _ | ⟨b, rest⟩
    · simp [round_robin_strategy] at h'
    · simp only [round_robin_strategy, Option.some.injEq] at h'
      rw [← h']
      exact find_getD_mem _ _ b (by simp)
  have hpf : ∀ r', priority_first_strategy avail task = some r' → r' ∈ avail := by
    intro r' h'
    rcases havail : avail with _ | ⟨b, rest⟩
    · rw [havail] at h'; simp [priority_first_strategy] at h'
    · rw [havail] at h'
      simp only [priority_first_strategy] at h'
      by_cases hp : task.priority = TaskPriority.high ∨ task.priority = TaskPriority.critical
      · rw [if_pos hp] at h'
        simp only [Option.some.injEq] at h'
        rw [← h']
        exact pyMin_mem _ rest b
      · rw [if_neg hp] at h'
        rw [← havail] at h' ⊢
        exact hll r' h'
  have hra : ∀ r', resource_aware_strategy avail = some r' → r' ∈ avail := by
    intro r' h'
    rcases avail with _ | ⟨b, rest⟩
    · simp [resource_aware_strategy] at h'
    · simp only [resource_aware_strategy, Option.some.injEq] at h'
      rw [← h']
      exact pyMin_mem _ rest b
  split at h
  · exact hrr r h
  · exact hll r h
  · exact hpf r h
  · exact hra r h
  · exact hll r h

/-- A selected worker was filtered as available: it sits at the returned
registry index and has spare capacity. -/
theorem select_worker_spec (s : LBState) (task : Task) (idx : Nat) (w : Worker)
    (h : select_worker s task = some (idx, w)) :
    w.active_tasks.length < w.max_concurrent ∧ s.workers[idx]? = some w := by
  unfold select_worker at h
  by_cases he : (get_available_workers s.workers task.task_type).isEmpty
  · rw [if_pos he] at h; exact Option.noConfusion h
  · rw [if_neg he] at h
    have hmem : (idx, w) ∈ get_available_workers s.workers task.task_type :=
      strategy_mem _ task s.current_strategy (idx, w) h
    unfold get_available_workers at hmem
    obtain ⟨henum, hpred⟩ := List.mem_filter.mp hmem
    have hidx : s.workers[idx]? = some w := List.mem_enum_iff_getElem?.mp henum
    simp only [Bool.and_eq_true, decide_eq_true_eq] at hpred
    exact ⟨hpred.2, hidx⟩

theorem workersInv_register (s : LBState) (worker_id : String) (mc : Nat)
    (tt : Option (List String)) (hs : workersInv s) :
    workersInv (register_worker s worker_id mc tt) := by
  intro w hw
  simp only [register_worker] at hw
  by_cases hex : (s.workers.any fun x => decide (x.worker_id = worker_id)) = true
  · rw [if_pos hex] at hw
    rcases List.mem_map.mp hw with ⟨x, hx, hxe⟩
    by_cases hxi : x.worker_id = worker_id
    · rw [if_pos hxi] at hxe; rw [← hxe]; exact Nat.zero_le _
    · rw [if_neg hxi] at hxe; rw [← hxe]; exact hs x hx
  · rw [if_neg hex] at hw
    rcases List.mem_append.mp hw with hx | hx
    · exact hs w hx
    · simp at hx; rw [hx]; exact Nat.zero_le _

theorem workersInv_step (s : LBState) (nowMs : Nat) (hs : workersInv s) :
    workersInv (process_queue_step s nowMs) := by
  rcases hpop : heappop s.task_queue with _ | ⟨task, rest⟩
  · have heq : process_queue_step s nowMs = s := by
      unfold process_queue_step
      rw [hpop]
    rw [heq]
    exact hs
  · rcases hsel : select_worker { s with task_queue := rest } task with _ | ⟨idx, w⟩
    · have heq : process_queue_step s nowMs =
          { s with task_queue := heappush rest task } := by
        unfold process_queue_step
        simp only [hpop, hsel]
      rw [heq]
      intro w' hw'
      exact hs w' hw'
    · obtain ⟨hcap, hidx⟩ := select_worker_spec _ _ _ _ hsel
      have heq : process_queue_step s nowMs =
          assign_task { s with task_queue := rest } task idx w nowMs := by
        unfold process_queue_step
        simp only [hpop, hsel]
      rw [heq]
      intro w' hw'
      simp only [assign_task] at hw'
      rcases List.mem_or_eq_of_mem_set hw' with hmem | hweq
      · exact hs w' hmem
      · by_cases hin : task.task_id ∈ w.active_tasks
        · rw [if_pos hin] at hweq
          rw [hweq]
          exact Nat.le_of_lt hcap
        · rw [if_neg hin] at hweq
          rw [hweq]
          simp only [List.length_append, List.length_cons, List.length_nil]
          omega

theorem workersInv_complete (s : LBState) (task : Task) (hs : workersInv s) :
    workersInv (complete_task s task) := by
  unfold complete_task
  rcases task.worker_id with _ | wid
  · exact hs
  · intro w hw
    simp only at hw
    rcases List.mem_map.mp hw with ⟨x, hx, hxe⟩
    by_cases hxi : x.worker_id = wid
    · rw [if_pos hxi] at hxe
      rw [← hxe]
      exact Nat.le_trans (List.length_erase_le _ _) (hs x hx)
    · rw [if_neg hxi] at hxe; rw [← hxe]; exact hs x hx

/-- Every reachable load-balancer state satisfies the capacity invariant. -/
theorem reachable_workersInv (s : LBState) (hr : ReachableLB s) : workersInv s := by
  induction hr with
  | init => intro w hw; simp [initialLB] at hw
  | register s worker_id mc tt hr ih => exact workersInv_register s worker_id mc tt ih
  | submit s nowMs task_type payload priority hr ih =>
    intro w hw; exact ih w hw
  | step s nowMs hr ih => exact workersInv_step s nowMs ih
  | complete s task hr ih => exact workersInv_complete s task ih
  | unregister s worker_id hr ih =>
    intro w hw; exact ih w (List.mem_of_mem_filter hw)
  | set_strategy s strat hr ih => intro w hw; exact ih w hw

/-! ### Claim theorems -/

/-- C9: saving the buffer to the snapshot file and loading it back yields
exactly the non-expired entries, each with its `entry_id`, `data` and
`priority` (indeed all fields) intact and in the original relative order;
entries expired at load time are dropped. -/
theorem snapshot_round_trip (st : BufferState) (saveMs loadMs : Nat) :
    load_from_file loadMs (save_to_file saveMs st) =
      st.buffer_entries.filter (fun e => !is_expired loadMs e) := by
  unfold load_from_file save_to_file
  simp only [List.map_map]
  have hid : BufferEntry.from_dict loadMs ∘ BufferEntry.to_dict = id := by
    funext e; cases e; rfl
  rw [hid, List.map_id]

/-- C10: `create_toggle` on an id that already exists returns the stored
toggle object and leaves the dispatcher (hence every field of the toggle)
unchanged; the supplied name, initial state and metadata are ignored. -/
theorem create_toggle_existing (d : ToggleDispatcher) (toggle_id name : String)
    (initial_state : ToggleState) (metadata : Option PyDict) (nowMs : Nat) (t : Toggle)
    (h : d.toggles.lookup toggle_id = some t) :
    create_toggle d toggle_id name initial_state metadata nowMs = (d, t) := by
  unfold create_toggle
  rw [h]

theorem create_toggle_existing_witness :
    create_toggle cDispatcher "a" "other" ToggleState.off (some [("k", "v")]) 99 =
      (cDispatcher, cToggleA) :=
  create_toggle_existing cDispatcher "a" "other" ToggleState.off (some [("k", "v")]) 99
    cToggleA (by rfl)

/-- C7 counterexample: with a two-event history holding one synchronized
check, `is_synchronized` returns `true`, although a strict majority of the
last five (here: last two) recorded checks (`2 * count > length`) fails. -/
theorem is_synchronized_tie_counterexample :
    is_synchronized [true, false] = true
    ∧ ¬ (2 * ([true, false].countP (fun b => b)) > [true, false].length) := by decide

/-- C7 (amended): `is_synchronized` is true exactly when the history is
non-empty and at least half (not: a strict majority) of the last five
recorded checks were synchronized; for histories of five or more entries the
two notions coincide, so there the original majority reading holds. -/
theorem is_synchronized_at_least_half (hist : List Bool) :
    (is_synchronized hist = true ↔
      hist ≠ [] ∧ (hist.drop (hist.length - 5)).length ≤
        2 * (hist.drop (hist.length - 5)).countP (fun b => b))
    ∧ (5 ≤ hist.length →
      (is_synchronized hist = true ↔
        (hist.drop (hist.length - 5)).length <
          2 * (hist.drop (hist.length - 5)).countP (fun b => b))) := by
  constructor
  · unfold is_synchronized
    by_cases hh : hist.isEmpty = true
    · rw [if_pos hh]
      simp [List.isEmpty_iff.mp hh]
    · rw [if_neg hh]
      have hne : hist ≠ [] := fun he => hh (by simp [he])
      simp [hne]
  · intro h5
    unfold is_synchronized
    have hne : hist.isEmpty ≠ true := by
      intro he
      rw [List.isEmpty_iff.mp he] at h5
      simp at h5
    rw [if_neg hne]
    have hlen : (hist.drop (hist.length - 5)).length = 5 := by
      rw [List.length_drop]; omega
    rw [hlen]
    constructor
    · intro hdec
      have := of_decide_eq_true hdec
      omega
    · intro hlt
      exact decide_eq_true (by omega)

theorem is_synchronized_at_least_half_witness :
    is_synchronized [true, true, true, false, false] = true ↔
      ([true, true, true, false, false].drop (5 - 5)).length <
        2 * ([true, true, true, false, false].drop (5 - 5)).countP (fun b => b) :=
  (is_synchronized_at_least_half [true, true, true, false, false]).2 (by decide)

/-- C5 counterexample: calling `change_state` twice with the toggle's current
state (`OFF` on a fresh toggle) leaves `change_count` unchanged, not
incremented by one as the claim states. -/
theorem change_state_noop_counterexample :
    (change_state [] (change_state [] c5Toggle ToggleState.off "system" 1).toggle
        ToggleState.off "system" 2).toggle.change_count = c5Toggle.change_count
    ∧ ¬ ((change_state [] (change_state [] c5Toggle ToggleState.off "system" 1).toggle
        ToggleState.off "system" 2).toggle.change_count = c5Toggle.change_count + 1) := by
  decide

/-- `change_state` to the current state is a no-op success. -/
theorem change_state_noop (validators : List (Toggle → ToggleState → Bool)) (t : Toggle)
    (s : ToggleState) (source : String) (nowMs : Nat) (h : s = t.state) :
    change_state validators t s source nowMs = ⟨t, true, 0⟩ := by
  unfold change_state
  rw [if_pos h]

/-- An accepted transition commits the new state, bumps the counter and runs
the callbacks once. -/
theorem change_state_apply (validators : List (Toggle → ToggleState → Bool)) (t : Toggle)
    (s : ToggleState) (source : String) (nowMs : Nat) (hst : ¬ s = t.state)
    (hall : validators.all (fun v => v t s) = true) :
    (change_state validators t s source nowMs).toggle.state = s
    ∧ (change_state validators t s source nowMs).toggle.change_count = t.change_count + 1
    ∧ (change_state validators t s source nowMs).ok = true
    ∧ (change_state validators t s source nowMs).callback_runs = 1 := by
  unfold change_state
  rw [if_neg hst, if_pos hall]
  exact ⟨rfl, rfl, rfl, rfl⟩

/-- C5 (amended): with no validator rejecting, calling
`change_state(t, s)` twice in a row fires callbacks at most once in total,
the second call is a no-op success (it returns `True` and mutates nothing),
and `change_count` rises by exactly one when `s` differs from the current
state and by zero when it does not (the first call is already a no-op
then). -/
theorem change_state_twice_spec (validators : List (Toggle → ToggleState → Bool))
    (t : Toggle) (s : ToggleState) (source : String) (now1 now2 : Nat)
    (hv : ∀ v ∈ validators, v t s = true) :
    (change_state validators t s source now1).callback_runs
      + (change_state validators (change_state validators t s source now1).toggle
          s source now2).callback_runs ≤ 1
    ∧ (change_state validators (change_state validators t s source now1).toggle
        s source now2).ok = true
    ∧ (change_state validators (change_state validators t s source now1).toggle
        s source now2).toggle = (change_state validators t s source now1).toggle
    ∧ (s ≠ t.state →
        (change_state validators t s source now1).toggle.change_count = t.change_count + 1
        ∧ (change_state validators t s source now1).callback_runs = 1)
    ∧ (s = t.state →
        (change_state validators t s source now1).toggle.change_count = t.change_count
        ∧ (change_state validators t s source now1).callback_runs = 0) := by
  by_cases hst : s = t.state
  · rw [change_state_noop validators t s source now1 hst]
    rw [show (⟨t, true, 0⟩ : ChangeStateResult).toggle = t from rfl]
    rw [change_state_noop validators t s source now2 hst]
    exact ⟨by simp, rfl, rfl, fun hns => absurd hst hns, fun _ => ⟨rfl, rfl⟩⟩
  · have hall : validators.all (fun v => v t s) = true := List.all_eq_true.mpr hv
    obtain ⟨hs1, hc1, hok1, hr1⟩ := change_state_apply validators t s source now1 hst hall
    rw [change_state_noop validators _ s source now2 hs1.symm]
    refine ⟨by rw [hr1]; simp, rfl, rfl, fun _ => ⟨hc1, hr1⟩, fun he => absurd he hst⟩

theorem change_state_twice_spec_witness :
    (change_state [] c5Toggle ToggleState.on "system" 1).callback_runs
      + (change_state [] (change_state [] c5Toggle ToggleState.on "system" 1).toggle
          ToggleState.on "system" 2).callback_runs ≤ 1
    ∧ (change_state [] (change_state [] c5Toggle ToggleState.on "system" 1).toggle
        ToggleState.on "system" 2).ok = true
    ∧ (change_state [] (change_state [] c5Toggle ToggleState.on "system" 1).toggle
        ToggleState.on "system" 2).toggle = (change_state [] c5Toggle ToggleState.on "system" 1).toggle
    ∧ (ToggleState.on ≠ c5Toggle.state →
        (change_state [] c5Toggle ToggleState.on "system" 1).toggle.change_count
          = c5Toggle.change_count + 1
        ∧ (change_state [] c5Toggle ToggleState.on "system" 1).callback_runs = 1)
    ∧ (ToggleState.on = c5Toggle.state →
        (change_state [] c5Toggle ToggleState.on "system" 1).toggle.change_count
          = c5Toggle.change_count
        ∧ (change_state [] c5Toggle ToggleState.on "system" 1).callback_runs = 0) :=
  change_state_twice_spec [] c5Toggle ToggleState.on "system" 1 2 (by simp)

/-- C2 counterexample: four consecutive failed health checks emit a fourth
event — the fourth check emits another `critical` (`cf = 4 ≥ 3`), while the
claim says a fourth consecutive failure produces no additional event. -/
theorem fourth_failure_event_counterexample :
    (run_health_checks ⟨true, 0⟩ [false, false, false, false]).2 =
      [[FailsafeLevel.warning], [], [FailsafeLevel.critical], [FailsafeLevel.critical]]
    ∧ (run_health_checks ⟨true, 0⟩ [false, false, false, false]).2.getD 3 [] ≠ [] := by
  decide

theorem run_checks_ge_two :
    ∀ (n c : Nat), 2 ≤ c → (run_health_checks ⟨false, c⟩ (List.replicate n false)).2 =
      List.replicate n [FailsafeLevel.critical] := by
  intro n
  induction n with
  | zero => intro c hc; rfl
  | succ n ih =>
    intro c hc
    rw [List.replicate_succ]
    have hstep : health_check_step ⟨false, c⟩ false =
        (⟨false, c + 1⟩, [FailsafeLevel.critical]) := by
      unfold health_check_step
      rw [if_neg (show ¬ (false = true) by simp)]
      dsimp only
      rw [if_neg (show ¬ (c + 1 = 1) by omega), if_pos (show 3 ≤ c + 1 by omega)]
    simp only [run_health_checks, hstep]
    rw [ih (c + 1) (by omega), List.replicate_succ]

theorem run_checks_from_one :
    ∀ n : Nat, (run_health_checks ⟨false, 1⟩ (List.replicate n false)).2 =
      ([([] : List FailsafeLevel)]).take n ++ List.replicate (n - 1) [FailsafeLevel.critical] := by
  intro n
  cases n with
  | zero => rfl
  | succ n =>
    rw [List.replicate_succ]
    have hstep : health_check_step ⟨false, 1⟩ false = (⟨false, 2⟩, []) := by
      unfold health_check_step
      rw [if_neg (show ¬ (false = true) by simp)]
      dsimp only
      rw [if_neg (show ¬ (1 + 1 = 1) by omega), if_neg (show ¬ (3 ≤ 1 + 1) by omega)]
    simp only [run_health_checks, hstep]
    rw [run_checks_ge_two n 2 (by omega)]
    simp

/-- C2 (amended): starting from a healthy (reset) component, a run of `n`
consecutive failed health checks emits one `warning` event on the first
failure, nothing on the second, and one `critical` event on the third and on
every later consecutive failure (so `n - 2` critical events in total, one
more per failure past the second); a successful check emits nothing and
resets the consecutive-failure counter. -/
theorem health_check_event_pattern :
    (∀ n : Nat, (run_health_checks ⟨true, 0⟩ (List.replicate n false)).2 =
        [[FailsafeLevel.warning], []].take n
          ++ List.replicate (n - 2) [FailsafeLevel.critical])
    ∧ (∀ st : HealthStatus, health_check_step st true = (⟨true, 0⟩, [])) := by
  constructor
  · intro n
    cases n with
    | zero => rfl
    | succ n =>
      rw [List.replicate_succ]
      have hstep : health_check_step ⟨true, 0⟩ false = (⟨false, 1⟩, [FailsafeLevel.warning]) := by
        unfold health_check_step
        rw [if_neg (show ¬ (false = true) by simp)]
        dsimp only
        rw [if_pos (show 0 + 1 = 1 by omega)]
      simp only [run_health_checks, hstep]
      rw [run_checks_from_one n, show n + 1 - 2 = n - 1 from by omega, List.take_succ_cons]
      simp
  · intro st
    unfold health_check_step
    rw [if_pos rfl]

/-- C1: on a full bounded queue (`qsize() ≥ maxsize > 0`),
`queue_command` suspends on `await command_queue.put(...)` — it neither
enqueues immediately nor raises: `asyncio.Queue.put` blocks instead of
raising `QueueFull` (only `put_nowait` raises it), so the
`except asyncio.QueueFull` branch that would produce the queue-full error is
unreachable, contradicting the specified `QueueFullError` failure. -/
theorem queue_command_full_blocks (st : RouterState) (nowMs : Nat)
    (command_type target : String) (payload : PyDict) (source : String)
    (h1 : 0 < st.max_command_queue)
    (h2 : st.max_command_queue ≤ st.command_queue.length) :
    queue_command st nowMs command_type target payload source = QueueCommandResult.blocked
    ∧ ∀ msg, queue_command st nowMs command_type target payload source
        ≠ QueueCommandResult.raised msg := by
  have hfull : ¬ (st.max_command_queue = 0
      ∨ st.command_queue.length < st.max_command_queue) := by omega
  constructor
  · unfold queue_command
    dsimp only
    rw [if_neg hfull]
  · intro msg h
    unfold queue_command at h
    dsimp only at h
    rw [if_neg hfull] at h
    exact QueueCommandResult.noConfusion h

theorem queue_command_full_blocks_witness :
    queue_command cFullRouter 5 "noop" "system" [] "system" = QueueCommandResult.blocked
    ∧ ∀ msg, queue_command cFullRouter 5 "noop" "system" [] "system"
        ≠ QueueCommandResult.raised msg :=
  queue_command_full_blocks cFullRouter 5 "noop" "system" [] "system" (by decide) (by decide)

/-- C3: if the buffer is at the configured cap, an eviction pass runs first
and, should the size still be at the cap afterwards, the call fails with the
"Buffer is full" error and adds nothing (the resulting state is exactly the
cleaned-up one); whenever `add_entry` succeeds, the buffer holds at most
`max_buffer_size` entries. -/
theorem add_entry_capacity_spec (nowMs : Nat) (st : BufferState) (buffer_type : BufferType)
    (data : PyDict) (priority : Int) (ttl_seconds : Option Nat) :
    (st.buffer_entries.length ≥ st.max_buffer_size →
      (cleanup_buffer nowMs st).buffer_entries.length ≥ st.max_buffer_size →
      add_entry nowMs st buffer_type data priority ttl_seconds =
        (cleanup_buffer nowMs st, Except.error "Buffer is full"))
    ∧ (∀ st' eid, add_entry nowMs st buffer_type data priority ttl_seconds =
        (st', Except.ok eid) → st'.buffer_entries.length ≤ st.max_buffer_size) := by
  constructor
  · intro hcap hstill
    unfold add_entry
    rw [if_pos hcap, if_pos hstill]
  · intro st' eid heq
    have hlen_unchecked : ∀ st0 : BufferState,
        add_entry.add_entry_unchecked nowMs st0 buffer_type data priority ttl_seconds =
          (st', Except.ok eid) →
        st'.buffer_entries.length = st0.buffer_entries.length + 1 := by
      intro st0 h0
      unfold add_entry.add_entry_unchecked at h0
      simp only [Prod.mk.injEq] at h0
      obtain ⟨hst0, _⟩ := h0
      rw [← hst0]
      dsimp only
      rw [(List.mergeSort_perm _ _).length_eq, List.length_append,
        List.length_cons, List.length_nil]
    unfold add_entry at heq
    by_cases hcap : st.buffer_entries.length ≥ st.max_buffer_size
    · rw [if_pos hcap] at heq
      by_cases hstill : (cleanup_buffer nowMs st).buffer_entries.length ≥ st.max_buffer_size
      · rw [if_pos hstill] at heq
        simp only [Prod.mk.injEq] at heq
        exact absurd heq.2 (by simp)
      · rw [if_neg hstill] at heq
        have := hlen_unchecked _ heq
        omega
    · rw [if_neg hcap] at heq
      have := hlen_unchecked _ heq
      omega

theorem add_entry_capacity_spec_witness :
    add_entry 7 cFullBuffer BufferType.command [] 0 none =
      (cleanup_buffer 7 cFullBuffer, Except.error "Buffer is full") :=
  (add_entry_capacity_spec 7 cFullBuffer BufferType.command [] 0 none).1
    (by decide) (by decide)

theorem repr_data_inj {m n : Nat} (h : (Nat.repr m).data = (Nat.repr n).data) : m = n :=
  toDigits_injective m n (by rw [← repr_data m, ← repr_data n]; exact h)

/-- C6 counterexample: two distinct buffer entries created in the same
millisecond receive the same identifier `"buf_1000"`; identifiers are not
unique "regardless of creation times". -/
theorem same_millisecond_id_collision :
    mkBufferEntry 1000 BufferType.command [("k", "a")] 0 none ≠
      mkBufferEntry 1000 BufferType.event [("k", "b")] 0 none
    ∧ (mkBufferEntry 1000 BufferType.command [("k", "a")] 0 none).entry_id =
      (mkBufferEntry 1000 BufferType.event [("k", "b")] 0 none).entry_id :=
  ⟨by decide, rfl⟩

/-- C6 (amended): the generated identifiers are distinct whenever the
creation parameters differ — distinct creation milliseconds for buffer
entries and failsafe events, distinct (millisecond, active-count) pairs for
commands and tasks; creations sharing those parameters collide. -/
theorem identifier_generation_injective :
    (∀ m n : Nat, buf_entry_id m = buf_entry_id n → m = n)
    ∧ (∀ m n : Nat, fs_event_id m = fs_event_id n → m = n)
    ∧ (∀ m a n b : Nat, command_id_fmt m a = command_id_fmt n b → m = n ∧ a = b)
    ∧ (∀ m a n b : Nat, task_id_fmt m a = task_id_fmt n b → m = n ∧ a = b) := by
  have hprefix : ∀ (p : String) (m n : Nat), p ++ Nat.repr m = p ++ Nat.repr n → m = n := by
    intro p m n h
    have hd := congrArg String.data h
    rw [String.data_append, String.data_append] at hd
    exact repr_data_inj (List.append_cancel_left hd)
  have hpair : ∀ m a n b : Nat,
      (Nat.repr m).data ++ '_' :: (Nat.repr a).data =
        (Nat.repr n).data ++ '_' :: (Nat.repr b).data → m = n ∧ a = b := by
    intro m a n b h
    obtain ⟨h1, h2⟩ :=
      append_underscore_inj _ _ _ _ (repr_no_underscore m) (repr_no_underscore n) h
    exact ⟨repr_data_inj h1, repr_data_inj h2⟩
  refine ⟨fun m n h => hprefix _ m n h, fun m n h => hprefix _ m n h, ?_, ?_⟩
  · intro m a n b h
    have hd := congrArg String.data h
    simp only [command_id_fmt, String.data_append, List.append_assoc] at hd
    rw [List.singleton_append, List.singleton_append] at hd
    exact hpair m a n b hd
  · intro m a n b h
    have hd := congrArg String.data h
    simp only [task_id_fmt, String.data_append, List.append_assoc] at hd
    have h2 := List.append_cancel_left hd
    rw [List.singleton_append, List.singleton_append] at h2
    exact hpair m a n b h2

theorem identifier_generation_injective_witness : (1000 : Nat) = 1000 ∧ (7 : Nat) = 7 :=
  ⟨identifier_generation_injective.1 1000 1000 rfl,
   (identifier_generation_injective.2.2.1 7 3 7 3 rfl).1⟩

/-- C4: the assignment path never gives a task to a worker at capacity —
every selected worker passed the availability filter and so has
`len(active_tasks) < max_concurrent` at its registry slot — and each state
reachable through register/submit/assignment-loop/complete/unregister
satisfies `len(active_tasks) ≤ max_concurrent` for every worker. -/
theorem load_balancer_capacity_invariant :
    (∀ (s : LBState) (task : Task) (idx : Nat) (w : Worker),
        select_worker s task = some (idx, w) →
        w.active_tasks.length < w.max_concurrent ∧ s.workers[idx]? = some w)
    ∧ (∀ s : LBState, ReachableLB s → ∀ w ∈ s.workers,
        w.active_tasks.length ≤ w.max_concurrent) :=
  ⟨fun s task idx w h => select_worker_spec s task idx w h,
   fun s hr => reachable_workersInv s hr⟩

theorem load_balancer_capacity_invariant_witness :
    (cWorker.active_tasks.length < cWorker.max_concurrent
      ∧ cWorkerState.workers[0]? = some cWorker)
    ∧ cWorker.active_tasks.length ≤ cWorker.max_concurrent :=
  ⟨load_balancer_capacity_invariant.1 cWorkerState cTask 0 cWorker (by decide),
   load_balancer_capacity_invariant.2 cWorkerState
     (ReachableLB.register initialLB "w1" 2 none ReachableLB.init) cWorker (by decide)⟩

/-- C8 counterexample: four equal-priority tasks pushed in creation order
`t0, t1, t2, t3` pop as `t0, t2, ...`: the second pop yields the task
created at time 2 while the equal-priority task created at time 1 is still
queued, so ties are not broken by earliest creation time. -/
theorem heap_tie_break_counterexample :
    heappop (heappush (heappush (heappush (heappush [] (tieTask "t0" 0)) (tieTask "t1" 1))
        (tieTask "t2" 2)) (tieTask "t3" 3)) =
      some (tieTask "t0" 0, [tieTask "t2" 2, tieTask "t1" 1, tieTask "t3" 3])
    ∧ heappop [tieTask "t2" 2, tieTask "t1" 1, tieTask "t3" 3] =
      some (tieTask "t2" 2, [tieTask "t1" 1, tieTask "t3" 3])
    ∧ (tieTask "t1" 1).priority = (tieTask "t2" 2).priority
    ∧ (tieTask "t1" 1).created_at < (tieTask "t2" 2).created_at :=
  ⟨rfl, rfl, rfl, by decide⟩

/-- C8 (amended): the task queue always yields a maximum-priority pending
task first — on every reachable heap, the popped task's priority value
dominates that of every queued task (ties among equal priorities follow the
binary-heap order, not creation time) — and a critical-priority task queued
alongside a normal-priority one is popped first regardless of submission
order. -/
theorem heap_max_priority_first :
    (∀ (heap : List Task) (t : Task) (rest : List Task),
        ReachableHeap heap → heappop heap = some (t, rest) →
        ∀ u ∈ heap, u.priority.value ≤ t.priority.value)
    ∧ (∀ tn tc : Task, tn.priority = TaskPriority.normal →
        tc.priority = TaskPriority.critical →
        heappop (heappush (heappush [] tn) tc) = some (tc, [tn])) := by
  constructor
  · intro heap t rest hr hpop u hu
    exact (heappop_spec heap t rest (reachable_heapInv heap hr) hpop).2 u hu
  · intro tn tc hn hc
    have hlt : task_lt tc tn = true := by
      rw [task_lt_iff]
      show tn.priority.value < tc.priority.value
      rw [hn, hc]
      decide
    have hpush1 : heappush [] tn = [tn] := rfl
    have hpush2 : heappush [tn] tc = [tc, tn] := by
      show siftdown ([tn] ++ [tc]) 0 [tn].length = [tc, tn]
      rw [show ([tn] : List Task).length = 1 from rfl]
      show siftdownAux 2 (([tn] ++ [tc]).getD 1 default) ([tn] ++ [tc]) 0 1 = [tc, tn]
      rw [show ([tn] ++ [tc]).getD 1 default = tc from rfl, siftdownAux_succ,
        if_pos (show (0 : Nat) < 1 by omega),
        show ([tn] ++ [tc]).getD ((1 - 1) / 2) default = tn from rfl, if_pos hlt]
      show siftdownAux 1 tc [tn, tn] 0 0 = [tc, tn]
      rfl
    rw [hpush1, hpush2]
    rfl

theorem heap_max_priority_first_witness :
    cTaskN.priority.value ≤ cTaskC.priority.value :=
  heap_max_priority_first.1 (heappush (heappush [] cTaskN) cTaskC) cTaskC [cTaskN]
    (ReachableHeap.push _ cTaskC (ReachableHeap.push _ cTaskN ReachableHeap.empty))
    (by decide) cTaskN (by decide)

end NeuroSync

